import Mathlib

/-!
Verification of the async coordination library (`src/event.ts`, `src/lock.ts`,
`src/run-with-timeout.ts`, `src/async.js`).

The development shallowly embeds the library:

* `Event` — the two listener `Set`s of the `Event` class and the `on` / `off` /
  `once` / `emit` / `listenerCount` operations.  A JS `Set` iterates in insertion
  order and holds no duplicates, so each set is a `List` of listener identities
  with a de-duplicating `add` and a removing `delete`.  `emit` returns the list of
  listeners in the order their invocations were deferred via `setImmediate`
  (a FIFO), together with the updated state.
* `waitForHandler` / `waitForRun` — the listener body installed by
  `Event.waitFor`, folded over the sequence of emitted values.
* `runWithTimeoutResult` / `triggerResult` — denotational models of the
  `Promise.race` in `runWithTimeout` and of `trigger`, with explicit timer
  bookkeeping (`TimerState`) recording whether `clearTimeout` was ever called.
* `Lock` — an operational microtask machine for `Lock.executeSynchronized`:
  promises with reaction lists, a FIFO job queue, and the exact program of
  `executeSynchronized` (`promise = _lastPromise.then(() => fun());
  _lastPromise = promise.then(noop, noop); return promise`).  Running the
  machine to quiescence yields a trace of task begin/settle events which is
  proved equal to the canonical FIFO trace.
-/

/-- A listener callback, keyed by identity (JS `Set`s key callbacks by identity). -/
abbrev Listener := Nat

/-- JS `Set.add`: appends the element iff it is not already present, preserving
insertion order. -/
def addSet (l : List Listener) (f : Listener) : List Listener :=
  if f ∈ l then l else l ++ [f]

/-- JS `Set.delete`: removes the element if present. -/
def delSet (l : List Listener) (f : Listener) : List Listener :=
  l.filter (fun g => g ≠ f)

/-- State of an `Event` instance: the `_listeners` and `_onceListeners` sets. -/
structure EventState where
  listeners : List Listener
  onceListeners : List Listener
deriving DecidableEq, Repr

namespace Event

/-- The `Event.on` method: if the callback is registered as a once-listener it is
deleted from `_onceListeners`; then it is added to `_listeners`. -/
def on' (s : EventState) (f : Listener) : EventState :=
  let s1 := if f ∈ s.onceListeners
    then { s with onceListeners := delSet s.onceListeners f } else s
  { s1 with listeners := addSet s1.listeners f }

/-- The `Event.off` method: deletes the callback from both sets. -/
def off (s : EventState) (f : Listener) : EventState :=
  { listeners := delSet s.listeners f, onceListeners := delSet s.onceListeners f }

/-- The `Event.once` method: a no-op if the callback is already a persistent
listener, otherwise adds it to `_onceListeners`. -/
def once (s : EventState) (f : Listener) : EventState :=
  if f ∈ s.listeners then s
  else { s with onceListeners := addSet s.onceListeners f }

/-- The action of the unsubscribe closure returned by `Event.once` in its
non-no-op branch: `() => this._onceListeners.delete(callback)`. -/
def onceUnsub (s : EventState) (f : Listener) : EventState :=
  { s with onceListeners := delSet s.onceListeners f }

/-- The second loop of `Event.emit`: iterates the `_onceListeners` set,
scheduling (`_trigger`) each listener and then deleting it from the set; the
iteration continues over the remaining elements.  Returns the scheduled
listeners in iteration order and the final contents of the set. -/
def emitOnceLoop : List Listener → List Listener × List Listener
  | [] => ([], [])
  | f :: rest =>
    let r := emitOnceLoop (delSet rest f)
    (f :: r.1, r.2)
termination_by l => l.length
decreasing_by
  simp only [delSet]
  exact Nat.lt_succ_of_le (List.length_filter_le _ _)

/-- The `Event.emit` method: the first loop schedules every persistent listener
in insertion order; the second loop schedules every once-listener in insertion
order, deleting each from the set.  The first component is the order in which
`_trigger` deferred the invocations (the `setImmediate` FIFO). -/
def emit (s : EventState) : List Listener × EventState :=
  let r := emitOnceLoop s.onceListeners
  (s.listeners ++ r.1, { listeners := s.listeners, onceListeners := r.2 })

/-- The `Event.listenerCount` method: `this._listeners.size`. -/
def listenerCount (s : EventState) : Nat := s.listeners.length

/-- Iterated emission: the state after `m` calls to `emit`. -/
def emitIter : Nat → EventState → EventState
  | 0, s => s
  | m+1, s => emitIter m (emit s).2

/-- The schedule (deferred-invocation order) of the `m+1`-st emission after
state `s`. -/
def schedAt (m : Nat) (s : EventState) : List Listener := (emit (emitIter m s)).1

/-- Well-formedness of an `Event` state: both `Set`s are duplicate-free and no
callback is in both sets at once (this holds for every reachable state). -/
def WF (s : EventState) : Prop :=
  s.listeners.Nodup ∧ s.onceListeners.Nodup ∧
    ∀ f ∈ s.listeners, f ∉ s.onceListeners

instance (s : EventState) : Decidable (WF s) := by
  unfold WF; infer_instance

end Event

/-- State of the listener installed by `Event.waitFor`: whether it is still
subscribed, and the settlement of the returned promise (`none` = still
pending; a promise keeps its first settlement). -/
structure WaitState (α : Type) where
  subscribed : Bool
  result : Option α
deriving DecidableEq, Repr

/-- The listener body installed by `Event.waitFor`:
`data => { if (predicate(data)) { unsubscribe(); resolve(data); } }`.
`resolve` on an already settled promise is a no-op, hence the `getD`. -/
def waitForHandler {α : Type} (p : α → Bool) (w : WaitState α) (data : α) : WaitState α :=
  if p data then { subscribed := false, result := some (w.result.getD data) } else w

/-- The `waitFor` listener applied to the sequence of values emitted after the
`waitFor` call, starting subscribed and unsettled. -/
def waitForRun {α : Type} (p : α → Bool) (events : List α) : WaitState α :=
  events.foldl (waitForHandler p) ⟨true, none⟩

/-- A JS `Error`, modelled by its message. -/
structure JsError where
  message : String
deriving DecidableEq, Repr

/-- The default error built by `runWithTimeout` when no `getError` is supplied:
`new Error(stringRendering)` with the configured duration interpolated. -/
def defaultTimeoutError (timeout : Nat) : JsError :=
  ⟨"Timed out in " ++ toString timeout ++ "ms."⟩

/-- The error the timer side of `runWithTimeout` rejects with:
`(getError ?? (() => new Error(...)))()`. -/
def timeoutRaceError (timeout : Nat) (getError : Option (Unit → JsError)) : JsError :=
  (getError.getD (fun _ => defaultTimeoutError timeout)) ()

/-- A `setTimeout` timer: when it is due to fire and whether `clearTimeout` was
called on it.  `runWithTimeout` keeps no handle to the timer created inside
`throwOnTimeout` and never calls `clearTimeout`, so for it `cleared` is
constantly `false`. -/
structure TimerState where
  fireTime : Nat
  cleared : Bool
deriving DecidableEq, Repr

/-- The timeout timer as left by `runWithTimeout`: set for `timeout`, never
cleared (the source contains no `clearTimeout` and discards the handle). -/
def runWithTimeoutTimer (timeout : Nat) : TimerState :=
  { fireTime := timeout, cleared := false }

/-- The instant at which `Promise.race([action(), throwOnTimeout ...])`
settles: the earlier of the action's settlement and the timer firing. -/
def raceSettleTime (actionDelay timeout : Nat) : Nat := min actionDelay timeout

/-- A timer is still pending at instant `t` iff it was not cleared and has not
fired yet. -/
def timerPending (tm : TimerState) (t : Nat) : Bool :=
  !tm.cleared && decide (t < tm.fireTime)

/-- The settlement of `runWithTimeout(action, timeout, getError)`, modelled
denotationally: the action settles at `actionDelay` with `actionOutcome`, the
timer rejects at `timeout`; `Promise.race` adopts the earlier settlement (on a
tie within the same turn the action wins, its settlement having been scheduled
first as the first element of the raced pair). -/
def runWithTimeoutResult (actionDelay : Nat) (actionOutcome : Except JsError Nat)
    (timeout : Nat) (getError : Option (Unit → JsError)) : Except JsError Nat :=
  if actionDelay ≤ timeout then actionOutcome
  else .error (timeoutRaceError timeout getError)

/-- The timeout error of `trigger`: `new Error(stringRendering)` with the
configured duration interpolated. -/
def triggerTimeoutError (timeout : Nat) : JsError :=
  ⟨"Timed out after " ++ toString timeout ++ "ms"⟩

/-- The settlement of the promise built by `trigger(timeout)`, modelled
denotationally.  `resolverCall = some (t, v)` means the resolver is first
called at instant `t` with value `v`; `none` means it is never called.  Per the
source, a reject timer is installed only for a truthy (nonzero) `timeout`, and
the promise keeps its first settlement: a resolver call at or after the timer
firing loses, a call strictly before it wins.  `none` as result means the
promise never settles. -/
def triggerResult (timeout : Nat) (resolverCall : Option (Nat × Nat)) :
    Option (Except JsError Nat) :=
  match resolverCall with
  | some (t, v) =>
    if timeout ≠ 0 ∧ timeout ≤ t then some (.error (triggerTimeoutError timeout))
    else some (.ok v)
  | none =>
    if timeout ≠ 0 then some (.error (triggerTimeoutError timeout)) else none

/-- Settlement of a JS promise: fulfilled with a value or rejected with an
error code.  The lock's internal chain promises fulfill with `undefined`,
encoded as value `0`. -/
inductive Outcome where
  | ok (v : Nat)
  | err (e : Nat)
deriving DecidableEq, Repr

/-- One task passed to `Lock.executeSynchronized`: either its body throws
synchronously (rejecting the `.then`-derived promise directly), or it returns
a promise that later settles with `out`. -/
inductive TaskSpec where
  | throws (e : Nat)
  | completes (out : Outcome)
deriving DecidableEq, Repr

/-- The settlement a task produces for its own returned future. -/
def outcomeOf : TaskSpec → Outcome
  | .throws e => .err e
  | .completes out => out

/-- The settlement of task `j` of a task list (defaulting outside the list). -/
def taskOutcome (tasks : List TaskSpec) (j : Nat) : Outcome :=
  outcomeOf (tasks.getD j (.completes (.ok 0)))

namespace Lock

/-- The `.then` handlers occurring in `Lock.executeSynchronized`. -/
inductive Handler where
  | runTask (k : Nat)
  | adoptTask (k : Nat)
  | noopBoth
deriving DecidableEq, Repr

/-- A reaction registered on a promise: when the promise settles, run `handler`
with the settlement and settle promise `target` with the handler's result. -/
structure Reaction where
  handler : Handler
  target : Nat
deriving DecidableEq, Repr

/-- A promise is pending with a list of registered reactions (in registration
order) or settled with an outcome. -/
inductive PState where
  | pending (reactions : List Reaction)
  | settled (out : Outcome)
deriving DecidableEq, Repr

/-- A queued piece of work: a reaction job carrying the source promise's
settlement, or the asynchronous settlement of a task's own promise (the task
body finishing). -/
inductive Job where
  | react (out : Outcome) (r : Reaction)
  | fire (pid : Nat) (out : Outcome)
deriving DecidableEq, Repr

/-- Observable events: task `k`'s body starts running; the promise returned by
`executeSynchronized` for task `k` settles. -/
inductive Ev where
  | begins (k : Nat)
  | settles (k : Nat) (out : Outcome)
deriving DecidableEq, Repr

/-- The machine: the enqueued task list, a store of promises (`pid ↦ state`,
unallocated ids are `pending []`), the next fresh promise id, the FIFO job
queue, the event trace, and the lock's `_lastPromise` field. -/
structure Machine where
  tasks : List TaskSpec
  promises : Nat → PState
  nextP : Nat
  queue : List Job
  trace : List Ev
  lastP : Nat

/-- Pointwise update of the promise store. -/
def updP (f : Nat → PState) (p : Nat) (st : PState) : Nat → PState :=
  fun q => if q = p then st else f q

/-- Settle promise `pid`: record the settlement and enqueue one reaction job per
registered reaction, in registration order.  No-op if already settled. -/
def settleP (m : Machine) (pid : Nat) (out : Outcome) : Machine :=
  match m.promises pid with
  | .pending rs =>
    { m with promises := updP m.promises pid (.settled out),
             queue := m.queue ++ rs.map (Job.react out) }
  | .settled _ => m

/-- Settle the promise returned by `executeSynchronized` for task `k`,
recording the settlement in the trace. -/
def settleRet (m : Machine) (k : Nat) (pid : Nat) (out : Outcome) : Machine :=
  settleP { m with trace := m.trace ++ [Ev.settles k out] } pid out

/-- Run one reaction job.  `runTask k` is the handler `() => fun()` of
`_lastPromise.then(() => fun())`: with a rejected source the rejection passes
through (no onRejected handler); with a fulfilled source task `k`'s body
starts.  A throwing body rejects the derived promise at once; otherwise the
body's own promise is allocated and its later settlement is queued, and on
that settlement `adoptTask k` resolves the derived promise with it.
`noopBoth` is `.then(() => {}, () => {})`: it fulfills its target with
`undefined` whatever the source settlement was. -/
def runJob (m : Machine) (out : Outcome) (r : Reaction) : Machine :=
  match r.handler with
  | .runTask k =>
    match out with
    | .err e => settleRet m k r.target (.err e)
    | .ok _ =>
      let m1 := { m with trace := m.trace ++ [Ev.begins k] }
      match m1.tasks.get? k with
      | some (.throws e) => settleRet m1 k r.target (.err e)
      | some (.completes out') =>
        let tp := m1.nextP
        { m1 with
          promises := updP m1.promises tp (.pending [⟨Handler.adoptTask k, r.target⟩]),
          nextP := tp + 1,
          queue := m1.queue ++ [Job.fire tp out'] }
      | none => m1
  | .adoptTask k => settleRet m k r.target out
  | .noopBoth => settleP m r.target (.ok 0)

/-- One machine step: pop the head of the job queue and run it (the state is
left unchanged once the queue is empty). -/
def step (m : Machine) : Machine :=
  match m.queue with
  | [] => m
  | j :: rest =>
    match j with
    | .react out r => runJob { m with queue := rest } out r
    | .fire pid out => settleP { m with queue := rest } pid out

/-- Iterated stepping. -/
def stepN : Nat → Machine → Machine
  | 0, m => m
  | n+1, m => stepN n (step m)

/-- `src.then(handler)`: allocate the derived promise; register a reaction if
`src` is pending, else enqueue a reaction job with `src`'s settlement. -/
def mthen (m : Machine) (src : Nat) (h : Handler) : Machine × Nat :=
  let t := m.nextP
  match m.promises src with
  | .pending rs =>
    ({ m with promises := updP m.promises src (.pending (rs ++ [⟨h, t⟩])),
              nextP := t + 1 }, t)
  | .settled out =>
    ({ m with queue := m.queue ++ [Job.react out ⟨h, t⟩], nextP := t + 1 }, t)

/-- `Lock.executeSynchronized` for task `k`, exactly as in `src/lock.ts`:
`promise = _lastPromise.then(() => fun()); _lastPromise =
promise.then(() => {}, () => {}); return promise` — synchronous, no
suspension between reading and replacing `_lastPromise`. -/
def executeSynchronized (m : Machine) (k : Nat) : Machine :=
  let r1 := mthen m m.lastP (.runTask k)
  let r2 := mthen r1.1 r1.2 .noopBoth
  { r2.1 with lastP := r2.2 }

/-- A fresh lock: `_lastPromise = Promise.resolve()` is promise `0`, already
fulfilled. -/
def m0 (tasks : List TaskSpec) : Machine :=
  { tasks := tasks,
    promises := fun p => if p = 0 then .settled (.ok 0) else .pending [],
    nextP := 1, queue := [], trace := [], lastP := 0 }

/-- Enqueue `r` consecutive tasks starting at index `k`, back-to-back with no
suspension in between. -/
def enqueueFrom : Machine → Nat → Nat → Machine
  | m, _, 0 => m
  | m, k, r+1 => enqueueFrom (executeSynchronized m k) (k+1) r

/-- Enqueue every task of the list on a fresh lock, back-to-back. -/
def enqueueAll (tasks : List TaskSpec) : Machine :=
  enqueueFrom (m0 tasks) 0 tasks.length

/-- Number of machine steps needed to retire one task. -/
def cost : TaskSpec → Nat
  | .throws _ => 2
  | .completes _ => 4

/-- Number of machine steps needed to retire a task list. -/
def totalCost (ts : List TaskSpec) : Nat := (ts.map cost).sum

/-- Enqueue every task back-to-back, then run the job queue to quiescence. -/
def runLock (tasks : List TaskSpec) : Machine :=
  stepN (totalCost tasks) (enqueueAll tasks)

/-- The canonical FIFO trace: task `k` begins, task `k` settles with its own
outcome, then task `k+1` begins, and so on. -/
def canonicalTrace : List TaskSpec → Nat → List Ev
  | [], _ => []
  | t :: ts, k => Ev.begins k :: Ev.settles k (outcomeOf t) :: canonicalTrace ts (k+1)

/-- The outcomes of the task-body promises allocated while running a task list
(tasks that throw synchronously allocate none). -/
def completedOutcomes (ts : List TaskSpec) : List Outcome :=
  ts.filterMap (fun t => match t with | .completes out => some out | .throws _ => none)

/-- The promise store while enqueuing: after `j` calls to
`executeSynchronized` and before any job has run.  Promise `0` is the initial
`_lastPromise`; promise `2i+1` is the promise returned for task `i`, carrying
the `noopBoth` reaction towards chain promise `2i+2`; chain promise `2i+2`
carries the `runTask (i+1)` reaction towards `2i+3` once task `i+1` has been
enqueued. -/
def enqPromises (j : Nat) : Nat → PState :=
  fun p =>
    if p = 0 then .settled (.ok 0)
    else if p ≤ 2 * j then
      if p % 2 = 1 then .pending [⟨Handler.noopBoth, p + 1⟩]
      else .pending (if p / 2 < j then [⟨Handler.runTask (p / 2), p + 1⟩] else [])
    else .pending []

/-- The machine after enqueuing the first `j` tasks of the list on a fresh
lock (and running nothing). -/
def enqMid (tasks : List TaskSpec) (j : Nat) : Machine :=
  { tasks := tasks,
    promises := enqPromises j,
    nextP := 2 * j + 1,
    queue := if 0 < j then [Job.react (.ok 0) ⟨Handler.runTask 0, 1⟩] else [],
    trace := [],
    lastP := 2 * j }

/-- The promise store of the run-phase milestone after the first `k` tasks
have fully retired: their returned promises (`2j+1`) carry their outcomes,
their chain promises (`2j+2`) are fulfilled with `undefined`, later tasks'
promises still hold the chain reactions, and the task-body promises allocated
so far (ids from `2n+1` on) are settled. -/
def midPromises (tasks : List TaskSpec) (k : Nat) : Nat → PState :=
  fun p =>
    let n := tasks.length
    if p = 0 then .settled (.ok 0)
    else if p ≤ 2 * n then
      if p % 2 = 1 then
        if (p - 1) / 2 < k then .settled (taskOutcome tasks ((p - 1) / 2))
        else .pending [⟨Handler.noopBoth, p + 1⟩]
      else
        if (p - 1) / 2 < k then .settled (.ok 0)
        else .pending (if p / 2 < n then [⟨Handler.runTask (p / 2), p + 1⟩] else [])
    else
      match (completedOutcomes (tasks.take k)).get? (p - (2 * n + 1)) with
      | some out => .settled out
      | none => .pending []

/-- The run-phase milestone machine: the first `k` tasks have fully retired
(their begin/settle events are in the trace) and the job that will start task
`k` is at the head of the queue. -/
def midState (tasks : List TaskSpec) (k : Nat) : Machine :=
  { tasks := tasks,
    promises := midPromises tasks k,
    nextP := 2 * tasks.length + 1 + (completedOutcomes (tasks.take k)).length,
    queue := if k < tasks.length
      then [Job.react (.ok 0) ⟨Handler.runTask k, 2 * k + 1⟩] else [],
    trace := canonicalTrace (tasks.take k) 0,
    lastP := 2 * tasks.length }

end Lock

theorem mem_delSet {l : List Listener} {f g : Listener} :
    g ∈ delSet l f ↔ g ∈ l ∧ g ≠ f := by
  simp [delSet]

theorem not_mem_delSet_self (l : List Listener) (f : Listener) : f ∉ delSet l f := by
  simp [mem_delSet]

theorem delSet_of_not_mem {l : List Listener} {f : Listener} (h : f ∉ l) :
    delSet l f = l := by
  apply List.filter_eq_self.2
  intro a ha
  simp only [ne_eq, decide_eq_true_eq]
  rintro rfl
  exact h ha

theorem delSet_nodup {l : List Listener} (f : Listener) (h : l.Nodup) :
    (delSet l f).Nodup := h.filter _

theorem mem_addSet {l : List Listener} {f g : Listener} :
    g ∈ addSet l f ↔ g ∈ l ∨ g = f := by
  unfold addSet
  by_cases hf : f ∈ l
  · rw [if_pos hf]
    constructor
    · exact Or.inl
    · rintro (hg | rfl)
      · exact hg
      · exact hf
  · rw [if_neg hf]
    simp

theorem mem_addSet_self (l : List Listener) (f : Listener) : f ∈ addSet l f :=
  mem_addSet.2 (Or.inr rfl)

theorem addSet_nodup {l : List Listener} (f : Listener) (h : l.Nodup) :
    (addSet l f).Nodup := by
  unfold addSet
  by_cases hf : f ∈ l
  · rwa [if_pos hf]
  · rw [if_neg hf, List.nodup_append]
    exact ⟨h, List.nodup_singleton f, by
      intro a ha hmem
      rw [List.mem_singleton] at hmem
      subst hmem
      exact hf ha⟩

theorem addSet_length_of_not_mem {l : List Listener} {f : Listener} (h : f ∉ l) :
    (addSet l f).length = l.length + 1 := by
  simp [addSet, h]

theorem emitOnceLoop_eq {l : List Listener} (h : l.Nodup) :
    Event.emitOnceLoop l = (l, []) := by
  induction l with
  | nil => simp [Event.emitOnceLoop]
  | cons f rest ih =>
    have hf : f ∉ rest := (List.nodup_cons.1 h).1
    have hr : rest.Nodup := (List.nodup_cons.1 h).2
    rw [Event.emitOnceLoop, delSet_of_not_mem hf, ih hr]

theorem emit_eq (s : EventState) (h : s.onceListeners.Nodup) :
    Event.emit s = (s.listeners ++ s.onceListeners,
      { listeners := s.listeners, onceListeners := [] }) := by
  simp [Event.emit, emitOnceLoop_eq h]

theorem emitIter_succ (m : Nat) (s : EventState) (h : s.onceListeners.Nodup) :
    Event.emitIter (m + 1) s = { listeners := s.listeners, onceListeners := [] } := by
  induction m generalizing s with
  | zero =>
    show Event.emitIter 0 (Event.emit s).2 = _
    rw [emit_eq s h]
    rfl
  | succ m ih =>
    show Event.emitIter (m + 1) (Event.emit s).2 = _
    rw [emit_eq s h]
    exact ih _ (by simp)

theorem once_listeners (s : EventState) (f : Listener) :
    (Event.once s f).listeners = s.listeners := by
  unfold Event.once
  split <;> rfl

theorem once_once_nodup (s : EventState) (f : Listener) (h : s.onceListeners.Nodup) :
    (Event.once s f).onceListeners.Nodup := by
  unfold Event.once
  split
  · exact h
  · exact addSet_nodup f h

theorem on'_listeners (s : EventState) (f : Listener) :
    (Event.on' s f).listeners = addSet s.listeners f := by
  by_cases hf : f ∈ s.onceListeners <;> simp [Event.on', hf]

theorem on'_not_once (s : EventState) (f : Listener) :
    f ∉ (Event.on' s f).onceListeners := by
  by_cases hf : f ∈ s.onceListeners
  · simp only [Event.on', if_pos hf]
    exact not_mem_delSet_self _ _
  · simp only [Event.on', if_neg hf]
    exact hf

theorem on'_once_nodup (s : EventState) (f : Listener) (h : s.onceListeners.Nodup) :
    (Event.on' s f).onceListeners.Nodup := by
  by_cases hf : f ∈ s.onceListeners
  · simp only [Event.on', if_pos hf]
    exact delSet_nodup f h
  · simp only [Event.on', if_neg hf]
    exact h

/-- C5: for every well-formed `Event` state, registering a callback via `once`
and then via `on` makes it purely persistent: it is in the persistent set, not
in the one-shot set, and fires exactly once per emission on every subsequent
emission; conversely `once` on a callback that is already a persistent
listener is a no-op. -/
theorem event_once_then_on_persistent (s : EventState) (f : Listener)
    (hwf : Event.WF s) :
    f ∈ (Event.on' (Event.once s f) f).listeners ∧
    f ∉ (Event.on' (Event.once s f) f).onceListeners ∧
    (∀ m, (Event.schedAt m (Event.on' (Event.once s f) f)).count f = 1) ∧
    (∀ t : EventState, f ∈ t.listeners → Event.once t f = t) := by
  obtain ⟨hl, ho, hdisj⟩ := hwf
  have h1l : (Event.once s f).listeners = s.listeners := once_listeners s f
  have h1o : (Event.once s f).onceListeners.Nodup := once_once_nodup s f ho
  have h2l : (Event.on' (Event.once s f) f).listeners = addSet s.listeners f := by
    rw [on'_listeners, h1l]
  have h2ln : (Event.on' (Event.once s f) f).listeners.Nodup := by
    rw [h2l]; exact addSet_nodup f hl
  have h2lf : f ∈ (Event.on' (Event.once s f) f).listeners := by
    rw [h2l]; exact mem_addSet_self _ _
  have h2o : f ∉ (Event.on' (Event.once s f) f).onceListeners :=
    on'_not_once (Event.once s f) f
  have h2on : (Event.on' (Event.once s f) f).onceListeners.Nodup :=
    on'_once_nodup (Event.once s f) f h1o
  refine ⟨h2lf, h2o, ?_, ?_⟩
  · intro m
    cases m with
    | zero =>
      have hs : Event.schedAt 0 (Event.on' (Event.once s f) f)
          = (Event.on' (Event.once s f) f).listeners
            ++ (Event.on' (Event.once s f) f).onceListeners := by
        show (Event.emit (Event.on' (Event.once s f) f)).1 = _
        rw [emit_eq _ h2on]
      rw [hs, List.count_append, List.count_eq_one_of_mem h2ln h2lf,
        List.count_eq_zero.2 h2o]
    | succ m =>
      have hs : Event.schedAt (m + 1) (Event.on' (Event.once s f) f)
          = (Event.on' (Event.once s f) f).listeners ++ ([] : List Listener) := by
        show (Event.emit (Event.emitIter (m + 1) (Event.on' (Event.once s f) f))).1 = _
        rw [emitIter_succ m _ h2on, emit_eq _ (by simp)]
      rw [hs, List.count_append, List.count_eq_one_of_mem h2ln h2lf, List.count_nil]
  · intro t hf
    unfold Event.once
    rw [if_pos hf]

/-- C6: `emit` schedules every persistent listener (in insertion order)
strictly before every one-shot listener (in insertion order), each as its own
deferred invocation; after `emit` the one-shot set is empty and the persistent
set is unchanged, so a one-shot listener is absent from the next emission's
schedule. -/
theorem event_emit_order (s : EventState) (hwf : Event.WF s) :
    (Event.emit s).1 = s.listeners ++ s.onceListeners ∧
    (Event.emit s).2.onceListeners = [] ∧
    (Event.emit s).2.listeners = s.listeners ∧
    ∀ f ∈ s.onceListeners, f ∉ (Event.emit (Event.emit s).2).1 := by
  obtain ⟨hl, ho, hdisj⟩ := hwf
  rw [emit_eq s ho]
  refine ⟨rfl, rfl, rfl, ?_⟩
  intro f hf
  rw [emit_eq _ (by simp)]
  simp only [List.append_nil]
  exact fun hmem => hdisj f hmem hf

/-- C9: the unsubscribe closure returned by `Event.once` deletes only from the
one-shot set: after `once(f)` then `on(f)` (promotion to persistent) it is a
no-op, `f` stays persistent and still fires exactly once per emission; only
`off` (which is also what the unsubscribe returned by `on` calls) removes `f`
from both sets. -/
theorem event_once_unsub_frame (s : EventState) (f : Listener)
    (hwf : Event.WF s) (h : f ∉ s.listeners) :
    Event.onceUnsub (Event.on' (Event.once s f) f) f = Event.on' (Event.once s f) f ∧
    f ∈ (Event.onceUnsub (Event.on' (Event.once s f) f) f).listeners ∧
    (Event.emit (Event.onceUnsub (Event.on' (Event.once s f) f) f)).1.count f = 1 ∧
    f ∉ (Event.off (Event.on' (Event.once s f) f) f).listeners ∧
    f ∉ (Event.off (Event.on' (Event.once s f) f) f).onceListeners := by
  obtain ⟨hl, ho, hdisj⟩ := hwf
  have h1o : (Event.once s f).onceListeners.Nodup := once_once_nodup s f ho
  have h2l : (Event.on' (Event.once s f) f).listeners = addSet s.listeners f := by
    rw [on'_listeners, once_listeners]
  have h2ln : (Event.on' (Event.once s f) f).listeners.Nodup := by
    rw [h2l]; exact addSet_nodup f hl
  have h2lf : f ∈ (Event.on' (Event.once s f) f).listeners := by
    rw [h2l]; exact mem_addSet_self _ _
  have h2o : f ∉ (Event.on' (Event.once s f) f).onceListeners :=
    on'_not_once (Event.once s f) f
  have h2on : (Event.on' (Event.once s f) f).onceListeners.Nodup :=
    on'_once_nodup (Event.once s f) f h1o
  have hid : Event.onceUnsub (Event.on' (Event.once s f) f) f
      = Event.on' (Event.once s f) f := by
    unfold Event.onceUnsub
    rw [delSet_of_not_mem h2o]
  refine ⟨hid, ?_, ?_, ?_, ?_⟩
  · rw [hid]; exact h2lf
  · rw [hid, emit_eq _ h2on, List.count_append,
      List.count_eq_one_of_mem h2ln h2lf, List.count_eq_zero.2 h2o]
  · unfold Event.off
    exact not_mem_delSet_self _ _
  · unfold Event.off
    exact not_mem_delSet_self _ _

/-- C10: `listenerCount` counts only persistent listeners: a once-only
registration leaves it unchanged, and a once-then-on promoted callback is
counted exactly once. -/
theorem event_listenerCount_persistent (s : EventState) (f : Listener)
    (hwf : Event.WF s) (h : f ∉ s.listeners) :
    Event.listenerCount (Event.once s f) = Event.listenerCount s ∧
    Event.listenerCount (Event.on' (Event.once s f) f) = Event.listenerCount s + 1 ∧
    (Event.on' (Event.once s f) f).listeners.count f = 1 := by
  obtain ⟨hl, ho, hdisj⟩ := hwf
  have h2l : (Event.on' (Event.once s f) f).listeners = addSet s.listeners f := by
    rw [on'_listeners, once_listeners]
  refine ⟨?_, ?_, ?_⟩
  · unfold Event.listenerCount
    rw [once_listeners]
  · unfold Event.listenerCount
    rw [h2l, addSet_length_of_not_mem h]
  · rw [h2l]
    exact List.count_eq_one_of_mem (addSet_nodup f hl) (mem_addSet_self _ _)

theorem waitForRun_result_aux {α : Type} (p : α → Bool) (xs : List α) (w : WaitState α) :
    (xs.foldl (waitForHandler p) w).result =
      (match w.result with
       | some v => some v
       | none => xs.find? p) := by
  induction xs generalizing w with
  | nil => cases hw : w.result <;> simp [hw]
  | cons x xs ih =>
    rw [List.foldl_cons, ih]
    by_cases hp : p x
    · cases hw : w.result <;> simp [waitForHandler, hp, hw]
    · cases hw : w.result <;> simp [waitForHandler, hp, hw]

/-- C8: the promise of `waitFor(p)` resolves with the first value emitted
after the call for which `p` is true, skipping non-matching values; in
particular on emissions 111, 211, 123, 311 with a predicate matching id 123
it resolves with 123. -/
theorem event_waitFor_first_match {α : Type} (p : α → Bool) (events : List α) :
    (waitForRun p events).result = events.find? p ∧
    (waitForRun (fun d => d == "123") ["111", "211", "123", "311"]).result
      = some "123" := by
  constructor
  · unfold waitForRun
    rw [waitForRun_result_aux]
  · rfl

/-- C3 (counterexample): `runWithTimeout` does not cancel its timeout timer
once the race settles: with the action settling at instant 1 under a 5ms
timeout the race is settled, yet the timer is still pending. -/
theorem runWithTimeout_leaves_timer_pending :
    timerPending (runWithTimeoutTimer 5) (raceSettleTime 1 5) = true := by decide

/-- C3 (amended): `runWithTimeout` never calls `clearTimeout`; once the race
settles, the timeout timer remains pending exactly when the action side
settled strictly before the timeout would fire (the timer then fires later
and its rejection is ignored by the already-settled race). -/
theorem runWithTimeout_timer_after_race (actionDelay timeout : Nat) :
    (runWithTimeoutTimer timeout).cleared = false ∧
    timerPending (runWithTimeoutTimer timeout) (raceSettleTime actionDelay timeout)
      = decide (actionDelay < timeout) := by
  refine ⟨rfl, ?_⟩
  simp only [timerPending, runWithTimeoutTimer, raceSettleTime, Bool.not_false,
    Bool.true_and, decide_eq_decide]
  omega

/-- C4: `runWithTimeout` settles with the action's own outcome whenever the
action settles before the timer fires; when the timer fires first, it rejects
with the error produced by the supplied factory, defaulting to an error whose
message names the configured duration. -/
theorem runWithTimeout_outcome (actionDelay timeout : Nat)
    (out : Except JsError Nat) (getError : Option (Unit → JsError)) :
    (actionDelay < timeout → runWithTimeoutResult actionDelay out timeout getError = out) ∧
    (timeout < actionDelay →
      runWithTimeoutResult actionDelay out timeout getError
        = .error (timeoutRaceError timeout getError)) ∧
    timeoutRaceError timeout none = defaultTimeoutError timeout ∧
    (∃ pre post, (defaultTimeoutError timeout).message
        = pre ++ toString timeout ++ post) := by
  refine ⟨?_, ?_, rfl, ⟨"Timed out in ", "ms.", rfl⟩⟩
  · intro h
    rw [runWithTimeoutResult, if_pos (Nat.le_of_lt h)]
  · intro h
    rw [runWithTimeoutResult, if_neg (Nat.not_le.2 h)]

/-- Witness for C4 at concrete inputs: action first at 1 of 5 yields the
action's value; timer first at 5 before 9 yields the timeout rejection. -/
theorem runWithTimeout_outcome_witness :
    runWithTimeoutResult 1 (.ok 42) 5 none = .ok 42 ∧
    runWithTimeoutResult 9 (.ok 42) 5 none = .error (timeoutRaceError 5 none) :=
  ⟨(runWithTimeout_outcome 1 5 (.ok 42) none).1 (by decide),
   (runWithTimeout_outcome 9 5 (.ok 42) none).2.1 (by decide)⟩

/-- C7: for `trigger` with a (truthy) timeout: if the resolver is never called,
or first called at or after the timer fires, the future rejects with an error
whose message carries the configured duration; if the resolver is called
before the timer fires, the future resolves with the resolver's argument. -/
theorem trigger_timeout_behavior (timeout t v : Nat) (h : 0 < timeout) :
    triggerResult timeout none = some (.error (triggerTimeoutError timeout)) ∧
    (timeout ≤ t →
      triggerResult timeout (some (t, v))
        = some (.error (triggerTimeoutError timeout))) ∧
    (t < timeout → triggerResult timeout (some (t, v)) = some (.ok v)) ∧
    (∃ pre post, (triggerTimeoutError timeout).message
        = pre ++ toString timeout ++ post) := by
  have hne : timeout ≠ 0 := Nat.pos_iff_ne_zero.1 h
  refine ⟨?_, ?_, ?_, ⟨"Timed out after ", "ms", rfl⟩⟩
  · rw [triggerResult, if_pos hne]
  · intro hle
    rw [triggerResult, if_pos ⟨hne, hle⟩]
  · intro hlt
    rw [triggerResult, if_neg (by intro hc; exact absurd hc.2 (Nat.not_le.2 hlt))]

/-- Witness for C7 at concrete inputs: timeout 5, resolver called at 2 with 42. -/
theorem trigger_timeout_witness :
    triggerResult 5 none = some (.error (triggerTimeoutError 5)) ∧
    (5 ≤ 2 → triggerResult 5 (some (2, 42)) = some (.error (triggerTimeoutError 5))) ∧
    (2 < 5 → triggerResult 5 (some (2, 42)) = some (.ok 42)) ∧
    (∃ pre post, (triggerTimeoutError 5).message = pre ++ toString 5 ++ post) :=
  trigger_timeout_behavior 5 2 42 (by decide)

theorem stepN_add (a b : Nat) (m : Lock.Machine) :
    Lock.stepN (a + b) m = Lock.stepN b (Lock.stepN a m) := by
  induction a generalizing m with
  | zero => rw [Nat.zero_add]; rfl
  | succ a ih =>
    rw [show a + 1 + b = (a + b) + 1 from by omega]
    show Lock.stepN (a + b) (Lock.step m) = _
    rw [ih]
    rfl

theorem step_runTask_completes (m : Lock.Machine) (v k tgt : Nat) (out' : Outcome)
    (rest : List Lock.Job)
    (hq : m.queue = Lock.Job.react (.ok v) ⟨.runTask k, tgt⟩ :: rest)
    (hk : m.tasks.get? k = some (.completes out')) :
    Lock.step m = { m with
      queue := rest ++ [Lock.Job.fire m.nextP out'],
      trace := m.trace ++ [Lock.Ev.begins k],
      promises := Lock.updP m.promises m.nextP (.pending [⟨.adoptTask k, tgt⟩]),
      nextP := m.nextP + 1 } := by
  simp only [Lock.step, hq, Lock.runJob, hk]

theorem step_runTask_throws (m : Lock.Machine) (v k e tgt : Nat)
    (rs : List Lock.Reaction) (rest : List Lock.Job)
    (hq : m.queue = Lock.Job.react (.ok v) ⟨.runTask k, tgt⟩ :: rest)
    (hk : m.tasks.get? k = some (.throws e))
    (hp : m.promises tgt = .pending rs) :
    Lock.step m = { m with
      promises := Lock.updP m.promises tgt (.settled (.err e)),
      queue := rest ++ rs.map (Lock.Job.react (.err e)),
      trace := m.trace ++ [Lock.Ev.begins k, Lock.Ev.settles k (.err e)] } := by
  simp only [Lock.step, hq, Lock.runJob, hk, Lock.settleRet, Lock.settleP, hp,
    List.append_assoc, List.singleton_append]

theorem step_fire (m : Lock.Machine) (pid : Nat) (out : Outcome)
    (rs : List Lock.Reaction) (rest : List Lock.Job)
    (hq : m.queue = Lock.Job.fire pid out :: rest)
    (hp : m.promises pid = .pending rs) :
    Lock.step m = { m with
      promises := Lock.updP m.promises pid (.settled out),
      queue := rest ++ rs.map (Lock.Job.react out) } := by
  simp only [Lock.step, hq, Lock.settleP, hp]

theorem step_adopt (m : Lock.Machine) (out : Outcome) (k tgt : Nat)
    (rs : List Lock.Reaction) (rest : List Lock.Job)
    (hq : m.queue = Lock.Job.react out ⟨.adoptTask k, tgt⟩ :: rest)
    (hp : m.promises tgt = .pending rs) :
    Lock.step m = { m with
      promises := Lock.updP m.promises tgt (.settled out),
      queue := rest ++ rs.map (Lock.Job.react out),
      trace := m.trace ++ [Lock.Ev.settles k out] } := by
  simp only [Lock.step, hq, Lock.runJob, Lock.settleRet, Lock.settleP, hp]

theorem step_noop (m : Lock.Machine) (out : Outcome) (tgt : Nat)
    (rs : List Lock.Reaction) (rest : List Lock.Job)
    (hq : m.queue = Lock.Job.react out ⟨.noopBoth, tgt⟩ :: rest)
    (hp : m.promises tgt = .pending rs) :
    Lock.step m = { m with
      promises := Lock.updP m.promises tgt (.settled (.ok 0)),
      queue := rest ++ rs.map (Lock.Job.react (.ok 0)) } := by
  simp only [Lock.step, hq, Lock.runJob, Lock.settleP, hp]

theorem executeSynchronized_pending (m : Lock.Machine) (k : Nat) (rs : List Lock.Reaction)
    (h : m.promises m.lastP = .pending rs)
    (h2 : m.promises m.nextP = .pending [])
    (hne : m.lastP ≠ m.nextP) :
    Lock.executeSynchronized m k = { m with
      promises := Lock.updP
        (Lock.updP m.promises m.lastP (.pending (rs ++ [⟨.runTask k, m.nextP⟩])))
        m.nextP (.pending [⟨.noopBoth, m.nextP + 1⟩]),
      nextP := m.nextP + 2,
      lastP := m.nextP + 1 } := by
  simp only [Lock.executeSynchronized, Lock.mthen, h]
  simp only [Lock.updP, if_neg (Ne.symm hne), h2]
  rfl

theorem executeSynchronized_settled (m : Lock.Machine) (k : Nat) (out : Outcome)
    (h : m.promises m.lastP = .settled out)
    (h2 : m.promises m.nextP = .pending []) :
    Lock.executeSynchronized m k = { m with
      promises := Lock.updP m.promises m.nextP (.pending [⟨.noopBoth, m.nextP + 1⟩]),
      queue := m.queue ++ [Lock.Job.react out ⟨.runTask k, m.nextP⟩],
      nextP := m.nextP + 2,
      lastP := m.nextP + 1 } := by
  simp only [Lock.executeSynchronized, Lock.mthen, h, h2]
  rfl

theorem taskOutcome_of_get? {tasks : List TaskSpec} {k : Nat} {t : TaskSpec}
    (h : tasks.get? k = some t) : taskOutcome tasks k = outcomeOf t := by
  unfold taskOutcome
  rw [List.getD_eq_get?, h]
  rfl

theorem completedOutcomes_take_throws {tasks : List TaskSpec} {k e : Nat}
    (h : tasks.get? k = some (.throws e)) :
    Lock.completedOutcomes (tasks.take (k+1)) = Lock.completedOutcomes (tasks.take k) := by
  rw [List.take_succ]
  unfold Lock.completedOutcomes
  rw [List.filterMap_append, ← List.get?_eq_getElem?, h]
  simp

theorem completedOutcomes_take_completes {tasks : List TaskSpec} {k : Nat} {out : Outcome}
    (h : tasks.get? k = some (.completes out)) :
    Lock.completedOutcomes (tasks.take (k+1))
      = Lock.completedOutcomes (tasks.take k) ++ [out] := by
  rw [List.take_succ]
  unfold Lock.completedOutcomes
  rw [List.filterMap_append, ← List.get?_eq_getElem?, h]
  simp

theorem canonicalTrace_append (ts1 ts2 : List TaskSpec) (k0 : Nat) :
    Lock.canonicalTrace (ts1 ++ ts2) k0
      = Lock.canonicalTrace ts1 k0 ++ Lock.canonicalTrace ts2 (k0 + ts1.length) := by
  induction ts1 generalizing k0 with
  | nil => simp [Lock.canonicalTrace]
  | cons t ts ih =>
    show Lock.Ev.begins k0 :: Lock.Ev.settles k0 (outcomeOf t) ::
        Lock.canonicalTrace (ts ++ ts2) (k0+1)
      = Lock.Ev.begins k0 :: Lock.Ev.settles k0 (outcomeOf t) ::
        (Lock.canonicalTrace ts (k0+1) ++ Lock.canonicalTrace ts2 (k0 + (t :: ts).length))
    rw [ih]
    have hlen : k0 + 1 + ts.length = k0 + (t :: ts).length := by
      simp only [List.length_cons]
      omega
    rw [hlen]

theorem canonicalTrace_take_succ (tasks : List TaskSpec) (k : Nat) (t : TaskSpec)
    (hk : k < tasks.length) (h : tasks.get? k = some t) :
    Lock.canonicalTrace (tasks.take (k+1)) 0
      = Lock.canonicalTrace (tasks.take k) 0
        ++ [Lock.Ev.begins k, Lock.Ev.settles k (outcomeOf t)] := by
  rw [List.take_succ, ← List.get?_eq_getElem?, h, canonicalTrace_append]
  have hlen : (tasks.take k).length = k := by
    rw [List.length_take]
    omega
  rw [hlen]
  simp [Lock.canonicalTrace]

theorem canonicalTrace_get?_begins (ts : List TaskSpec) (k0 i : Nat) (h : i < ts.length) :
    (Lock.canonicalTrace ts k0).get? (2*i) = some (.begins (k0+i)) := by
  induction ts generalizing k0 i with
  | nil => simp at h
  | cons t rest ih =>
    cases i with
    | zero => simp [Lock.canonicalTrace]
    | succ i =>
      have h2 : 2*(i+1) = 2*i+1+1 := by omega
      rw [h2, Lock.canonicalTrace]
      simp only [List.get?_cons_succ]
      rw [ih (k0+1) i (by simpa using Nat.lt_of_succ_lt_succ h)]
      congr 2
      omega

theorem canonicalTrace_get?_settles (ts : List TaskSpec) (k0 i : Nat) (h : i < ts.length) :
    (Lock.canonicalTrace ts k0).get? (2*i+1)
      = some (.settles (k0+i) (outcomeOf (ts.getD i (.completes (.ok 0))))) := by
  induction ts generalizing k0 i with
  | nil => simp at h
  | cons t rest ih =>
    cases i with
    | zero => simp [Lock.canonicalTrace]
    | succ i =>
      have h2 : 2*(i+1)+1 = 2*i+1+1+1 := by omega
      rw [h2, Lock.canonicalTrace]
      simp only [List.get?_cons_succ]
      rw [ih (k0+1) i (by simpa using Nat.lt_of_succ_lt_succ h)]
      have h3 : k0 + 1 + i = k0 + (i+1) := by omega
      rw [h3]
      rfl

theorem canonicalTrace_begins_inv (ts : List TaskSpec) (k0 i j : Nat)
    (h : (Lock.canonicalTrace ts k0).get? i = some (.begins j)) :
    k0 ≤ j ∧ i = 2*(j - k0) := by
  induction ts generalizing k0 i with
  | nil => simp [Lock.canonicalTrace] at h
  | cons t rest ih =>
    cases i with
    | zero =>
      simp [Lock.canonicalTrace] at h
      subst h
      omega
    | succ i' =>
      cases i' with
      | zero => simp [Lock.canonicalTrace] at h
      | succ i'' =>
        rw [Lock.canonicalTrace] at h
        simp only [List.get?_cons_succ] at h
        have := ih (k0+1) i'' h
        omega

theorem enqPromises_at_last {j : Nat} (hj : 0 < j) :
    Lock.enqPromises j (2*j) = .pending [] := by
  unfold Lock.enqPromises
  rw [if_neg (by omega : ¬(2*j = 0)), if_pos (by omega : 2*j ≤ 2*j),
    if_neg (by omega : ¬(2*j % 2 = 1)), if_neg (by omega : ¬(2*j/2 < j))]

theorem enqPromises_big {j p : Nat} (h : 2*j < p) :
    Lock.enqPromises j p = .pending [] := by
  unfold Lock.enqPromises
  rw [if_neg (by omega : ¬(p = 0)), if_neg (by omega : ¬(p ≤ 2*j))]

theorem enqPromises_succ_zero :
    Lock.updP (Lock.enqPromises 0) 1 (.pending [⟨Lock.Handler.noopBoth, 2⟩])
    = Lock.enqPromises 1 := by
  funext p
  unfold Lock.updP Lock.enqPromises
  split_ifs <;> first
    | rfl
    | omega
    | simp_all
    | (simp_all; omega)

theorem enqPromises_succ_pos (j : Nat) (hj : 0 < j) :
    Lock.updP (Lock.updP (Lock.enqPromises j) (2*j)
        (.pending ([] ++ [⟨Lock.Handler.runTask j, 2*j+1⟩])))
      (2*j+1) (.pending [⟨Lock.Handler.noopBoth, 2*j+1+1⟩])
    = Lock.enqPromises (j+1) := by
  funext p
  unfold Lock.updP Lock.enqPromises
  simp only [List.nil_append]
  split_ifs <;> first
    | rfl
    | omega
    | (simp_all [Lock.PState.pending.injEq, List.cons.injEq, Lock.Reaction.mk.injEq,
        Lock.Handler.runTask.injEq] <;> omega)

theorem enq_step (tasks : List TaskSpec) (j : Nat) :
    Lock.executeSynchronized (Lock.enqMid tasks j) j = Lock.enqMid tasks (j+1) := by
  rcases Nat.eq_zero_or_pos j with rfl | hj
  · have h2 : (Lock.enqMid tasks 0).promises (Lock.enqMid tasks 0).nextP
        = Lock.PState.pending [] := by
      simp only [Lock.enqMid]
      exact enqPromises_big (by omega)
    rw [executeSynchronized_settled (Lock.enqMid tasks 0) 0 (.ok 0) rfl h2]
    simp only [Lock.enqMid]
    rw [Lock.Machine.mk.injEq]
    exact ⟨rfl, enqPromises_succ_zero, by decide, by decide, rfl, by decide⟩
  · have h1 : (Lock.enqMid tasks j).promises (Lock.enqMid tasks j).lastP
        = Lock.PState.pending [] := by
      simp only [Lock.enqMid]
      exact enqPromises_at_last hj
    have h2 : (Lock.enqMid tasks j).promises (Lock.enqMid tasks j).nextP
        = Lock.PState.pending [] := by
      simp only [Lock.enqMid]
      exact enqPromises_big (by omega)
    have hne : (Lock.enqMid tasks j).lastP ≠ (Lock.enqMid tasks j).nextP := by
      simp only [Lock.enqMid]
      omega
    rw [executeSynchronized_pending (Lock.enqMid tasks j) j [] h1 h2 hne]
    simp only [Lock.enqMid]
    rw [Lock.Machine.mk.injEq]
    refine ⟨rfl, enqPromises_succ_pos j hj, by omega, ?_, rfl, by omega⟩
    rw [if_pos hj, if_pos (by omega : (0:Nat) < j+1)]

theorem enqueueFrom_eq (tasks : List TaskSpec) (r j : Nat) :
    Lock.enqueueFrom (Lock.enqMid tasks j) j r = Lock.enqMid tasks (j + r) := by
  induction r generalizing j with
  | zero => rfl
  | succ r ih =>
    show Lock.enqueueFrom (Lock.executeSynchronized (Lock.enqMid tasks j) j) (j+1) r = _
    rw [enq_step, ih]
    congr 1
    omega

theorem m0_eq_enqMid (tasks : List TaskSpec) : Lock.m0 tasks = Lock.enqMid tasks 0 := by
  unfold Lock.m0 Lock.enqMid
  rw [Lock.Machine.mk.injEq]
  refine ⟨rfl, ?_, by decide, by decide, rfl, by decide⟩
  funext p
  unfold Lock.enqPromises
  by_cases h0 : p = 0
  · subst h0; rfl
  · rw [if_neg h0, if_neg h0, if_neg (by omega)]

theorem enqueueAll_eq (tasks : List TaskSpec) :
    Lock.enqueueAll tasks = Lock.enqMid tasks tasks.length := by
  unfold Lock.enqueueAll
  rw [m0_eq_enqMid, enqueueFrom_eq]
  congr 1
  omega

theorem enqMid_eq_midState (tasks : List TaskSpec) :
    Lock.enqMid tasks tasks.length = Lock.midState tasks 0 := by
  unfold Lock.enqMid Lock.midState
  rw [Lock.Machine.mk.injEq]
  refine ⟨rfl, ?_, rfl, rfl, rfl, rfl⟩
  funext p
  unfold Lock.enqPromises Lock.midPromises
  by_cases h0 : p = 0
  · subst h0; rfl
  · rw [if_neg h0, if_neg h0]
    by_cases hn : p ≤ 2*tasks.length
    · rw [if_pos hn, if_pos hn]
      by_cases hodd : p % 2 = 1
      · rw [if_pos hodd, if_pos hodd,
          if_neg (show ¬((p-1)/2 < 0) from by omega)]
      · rw [if_neg hodd, if_neg hodd,
          if_neg (show ¬((p-1)/2 < 0) from by omega)]
    · rw [if_neg hn, if_neg hn]
      rfl

theorem midPromises_ret (tasks : List TaskSpec) (k : Nat) (hk : k < tasks.length) :
    Lock.midPromises tasks k (2*k+1)
      = .pending [⟨Lock.Handler.noopBoth, 2*k+1+1⟩] := by
  unfold Lock.midPromises
  rw [if_neg (show ¬(2*k+1 = 0) from by omega),
    if_pos (show 2*k+1 ≤ 2*tasks.length from by omega),
    if_pos (show (2*k+1) % 2 = 1 from by omega),
    if_neg (show ¬((2*k+1-1)/2 < k) from by omega)]

theorem midPromises_chain (tasks : List TaskSpec) (k : Nat) (hk : k < tasks.length) :
    Lock.midPromises tasks k (2*k+1+1)
      = .pending (if k+1 < tasks.length
          then [⟨Lock.Handler.runTask (k+1), 2*k+1+1+1⟩] else []) := by
  unfold Lock.midPromises
  rw [if_neg (show ¬(2*k+1+1 = 0) from by omega),
    if_pos (show 2*k+1+1 ≤ 2*tasks.length from by omega),
    if_neg (show ¬((2*k+1+1) % 2 = 1) from by omega),
    if_neg (show ¬((2*k+1+1-1)/2 < k) from by omega),
    show (2*k+1+1)/2 = k+1 from by omega]

theorem midPromises_fresh (tasks : List TaskSpec) (k : Nat) :
    Lock.midPromises tasks k
      (2*tasks.length + 1 + (Lock.completedOutcomes (tasks.take k)).length)
      = .pending [] := by
  unfold Lock.midPromises
  rw [if_neg (by omega), if_neg (by omega), List.get?_eq_none.2 (by omega)]

theorem midPromises_untouched_same (tasks : List TaskSpec) (k p : Nat)
    (hco : Lock.completedOutcomes (tasks.take (k+1))
      = Lock.completedOutcomes (tasks.take k))
    (h1 : p ≠ 2*k+1) (h2 : p ≠ 2*k+1+1) :
    Lock.midPromises tasks (k+1) p = Lock.midPromises tasks k p := by
  unfold Lock.midPromises
  rw [hco]
  by_cases h0 : p = 0
  · rw [if_pos h0, if_pos h0]
  rw [if_neg h0, if_neg h0]
  by_cases hn : p ≤ 2*tasks.length
  · rw [if_pos hn, if_pos hn]
    by_cases hodd : p % 2 = 1
    · rw [if_pos hodd, if_pos hodd]
      by_cases hlt : (p-1)/2 < k
      · rw [if_pos (show (p-1)/2 < k+1 from by omega), if_pos hlt]
      · rw [if_neg (show ¬((p-1)/2 < k+1) from by omega), if_neg hlt]
    · rw [if_neg hodd, if_neg hodd]
      by_cases hlt : (p-1)/2 < k
      · rw [if_pos (show (p-1)/2 < k+1 from by omega), if_pos hlt]
      · rw [if_neg (show ¬((p-1)/2 < k+1) from by omega), if_neg hlt]
  · rw [if_neg hn, if_neg hn]

theorem midPromises_untouched_append (tasks : List TaskSpec) (k p : Nat) (out : Outcome)
    (hco : Lock.completedOutcomes (tasks.take (k+1))
      = Lock.completedOutcomes (tasks.take k) ++ [out])
    (h1 : p ≠ 2*k+1) (h2 : p ≠ 2*k+1+1)
    (h3 : p ≠ 2*tasks.length + 1 + (Lock.completedOutcomes (tasks.take k)).length) :
    Lock.midPromises tasks (k+1) p = Lock.midPromises tasks k p := by
  unfold Lock.midPromises
  rw [hco]
  by_cases h0 : p = 0
  · rw [if_pos h0, if_pos h0]
  rw [if_neg h0, if_neg h0]
  by_cases hn : p ≤ 2*tasks.length
  · rw [if_pos hn, if_pos hn]
    by_cases hodd : p % 2 = 1
    · rw [if_pos hodd, if_pos hodd]
      by_cases hlt : (p-1)/2 < k
      · rw [if_pos (show (p-1)/2 < k+1 from by omega), if_pos hlt]
      · rw [if_neg (show ¬((p-1)/2 < k+1) from by omega), if_neg hlt]
    · rw [if_neg hodd, if_neg hodd]
      by_cases hlt : (p-1)/2 < k
      · rw [if_pos (show (p-1)/2 < k+1 from by omega), if_pos hlt]
      · rw [if_neg (show ¬((p-1)/2 < k+1) from by omega), if_neg hlt]
  · rw [if_neg hn, if_neg hn]
    by_cases hidx : p - (2*tasks.length+1)
        < (Lock.completedOutcomes (tasks.take k)).length
    · rw [List.get?_append hidx]
    · rw [List.get?_eq_none.2
          (by simp only [List.length_append, List.length_singleton]; omega),
        List.get?_eq_none.2 (by omega)]

theorem midPromises_succ_throws (tasks : List TaskSpec) (k e : Nat)
    (hk : k < tasks.length) (ht : tasks.get? k = some (.throws e)) :
    Lock.updP (Lock.updP (Lock.midPromises tasks k)
        (2*k+1) (.settled (.err e)))
      (2*k+1+1) (.settled (.ok 0))
    = Lock.midPromises tasks (k+1) := by
  have hco := completedOutcomes_take_throws ht
  have htk := taskOutcome_of_get? ht
  funext p
  simp only [Lock.updP]
  by_cases h2 : p = 2*k+1+1
  · rw [if_pos h2]
    subst h2
    unfold Lock.midPromises
    rw [if_neg (by omega), if_pos (by omega),
      if_neg (show ¬((2*k+1+1) % 2 = 1) from by omega),
      if_pos (show (2*k+1+1-1)/2 < k+1 from by omega)]
  · rw [if_neg h2]
    by_cases h1 : p = 2*k+1
    · rw [if_pos h1]
      subst h1
      unfold Lock.midPromises
      rw [if_neg (by omega), if_pos (by omega),
        if_pos (show (2*k+1) % 2 = 1 from by omega),
        if_pos (show (2*k+1-1)/2 < k+1 from by omega),
        show (2*k+1-1)/2 = k from by omega, htk]
      rfl
    · rw [if_neg h1]
      exact (midPromises_untouched_same tasks k p hco h1 h2).symm

theorem midPromises_succ_completes (tasks : List TaskSpec) (k : Nat) (out : Outcome)
    (hk : k < tasks.length) (ht : tasks.get? k = some (.completes out)) :
    Lock.updP (Lock.updP (Lock.updP (Lock.updP (Lock.midPromises tasks k)
        (2*tasks.length + 1 + (Lock.completedOutcomes (tasks.take k)).length)
        (.pending [⟨Lock.Handler.adoptTask k, 2*k+1⟩]))
        (2*tasks.length + 1 + (Lock.completedOutcomes (tasks.take k)).length)
        (.settled out))
      (2*k+1) (.settled out))
      (2*k+1+1) (.settled (.ok 0))
    = Lock.midPromises tasks (k+1) := by
  have hco := completedOutcomes_take_completes ht
  have htk := taskOutcome_of_get? ht
  funext p
  simp only [Lock.updP]
  by_cases h2 : p = 2*k+1+1
  · rw [if_pos h2]
    subst h2
    unfold Lock.midPromises
    rw [if_neg (by omega), if_pos (by omega),
      if_neg (show ¬((2*k+1+1) % 2 = 1) from by omega),
      if_pos (show (2*k+1+1-1)/2 < k+1 from by omega)]
  · rw [if_neg h2]
    by_cases h1 : p = 2*k+1
    · rw [if_pos h1]
      subst h1
      unfold Lock.midPromises
      rw [if_neg (by omega), if_pos (by omega),
        if_pos (show (2*k+1) % 2 = 1 from by omega),
        if_pos (show (2*k+1-1)/2 < k+1 from by omega),
        show (2*k+1-1)/2 = k from by omega, htk]
      rfl
    · rw [if_neg h1]
      by_cases htp : p = 2*tasks.length + 1
          + (Lock.completedOutcomes (tasks.take k)).length
      · rw [if_pos htp]
        subst htp
        unfold Lock.midPromises
        rw [if_neg (by omega), if_neg (by omega), hco,
          show 2*tasks.length + 1 + (Lock.completedOutcomes (tasks.take k)).length
              - (2*tasks.length+1)
            = (Lock.completedOutcomes (tasks.take k)).length from by omega,
          List.get?_concat_length]
      · rw [if_neg htp, if_neg htp]
        exact (midPromises_untouched_append tasks k p out hco h1 h2 htp).symm

theorem mid_step_throws (tasks : List TaskSpec) (k e : Nat)
    (hk : k < tasks.length) (ht : tasks.get? k = some (.throws e)) :
    Lock.stepN 2 (Lock.midState tasks k) = Lock.midState tasks (k+1) := by
  have hq0 : (Lock.midState tasks k).queue
      = Lock.Job.react (.ok 0) ⟨.runTask k, 2*k+1⟩ :: [] := by
    simp only [Lock.midState]
    rw [if_pos hk]
  have hp0 : (Lock.midState tasks k).promises (2*k+1)
      = .pending [⟨Lock.Handler.noopBoth, 2*k+1+1⟩] := by
    show Lock.midPromises tasks k (2*k+1) = _
    exact midPromises_ret tasks k hk
  have e1 := step_runTask_throws (Lock.midState tasks k) 0 k e (2*k+1)
    [⟨Lock.Handler.noopBoth, 2*k+1+1⟩] [] hq0 ht hp0
  have hq1 : (Lock.step (Lock.midState tasks k)).queue
      = Lock.Job.react (.err e) ⟨.noopBoth, 2*k+1+1⟩ :: [] := by
    rw [e1]
    rfl
  have hp1 : (Lock.step (Lock.midState tasks k)).promises (2*k+1+1)
      = .pending (if k+1 < tasks.length
          then [⟨Lock.Handler.runTask (k+1), 2*k+1+1+1⟩] else []) := by
    rw [e1]
    show Lock.updP (Lock.midState tasks k).promises (2*k+1)
        (.settled (.err e)) (2*k+1+1) = _
    simp only [Lock.updP]
    rw [if_neg (show ¬(2*k+1+1 = 2*k+1) from by omega)]
    show Lock.midPromises tasks k (2*k+1+1) = _
    exact midPromises_chain tasks k hk
  have e2 := step_noop (Lock.step (Lock.midState tasks k)) (.err e) (2*k+1+1)
    (if k+1 < tasks.length
      then [⟨Lock.Handler.runTask (k+1), 2*k+1+1+1⟩] else []) [] hq1 hp1
  show Lock.step (Lock.step (Lock.midState tasks k)) = _
  rw [e2, e1]
  simp only [Lock.midState]
  rw [Lock.Machine.mk.injEq]
  refine ⟨rfl, midPromises_succ_throws tasks k e hk ht, ?_, ?_, ?_, rfl⟩
  · rw [completedOutcomes_take_throws ht]
  · by_cases h : k+1 < tasks.length
    · rw [if_pos h, if_pos h]
      rfl
    · rw [if_neg h, if_neg h]
      rfl
  · rw [canonicalTrace_take_succ tasks k _ hk ht]
    rfl

theorem mid_step_completes (tasks : List TaskSpec) (k : Nat) (out : Outcome)
    (hk : k < tasks.length) (ht : tasks.get? k = some (.completes out)) :
    Lock.stepN 4 (Lock.midState tasks k) = Lock.midState tasks (k+1) := by
  have hq0 : (Lock.midState tasks k).queue
      = Lock.Job.react (.ok 0) ⟨.runTask k, 2*k+1⟩ :: [] := by
    simp only [Lock.midState]
    rw [if_pos hk]
  have e1 := step_runTask_completes (Lock.midState tasks k) 0 k (2*k+1) out [] hq0 ht
  have hq1 : (Lock.step (Lock.midState tasks k)).queue
      = Lock.Job.fire ((Lock.midState tasks k).nextP) out :: [] := by
    rw [e1]
    rfl
  have hp1 : (Lock.step (Lock.midState tasks k)).promises ((Lock.midState tasks k).nextP)
      = .pending [⟨Lock.Handler.adoptTask k, 2*k+1⟩] := by
    rw [e1]
    show Lock.updP (Lock.midState tasks k).promises ((Lock.midState tasks k).nextP)
        (.pending [⟨Lock.Handler.adoptTask k, 2*k+1⟩]) ((Lock.midState tasks k).nextP) = _
    simp only [Lock.updP]
    simp
  have e2 := step_fire (Lock.step (Lock.midState tasks k))
    ((Lock.midState tasks k).nextP) out [⟨Lock.Handler.adoptTask k, 2*k+1⟩] [] hq1 hp1
  have hq2 : (Lock.step (Lock.step (Lock.midState tasks k))).queue
      = Lock.Job.react out ⟨.adoptTask k, 2*k+1⟩ :: [] := by
    rw [e2]
    rfl
  have hne1 : ¬(2*k+1 = (Lock.midState tasks k).nextP) := by
    simp only [Lock.midState]
    omega
  have hp2 : (Lock.step (Lock.step (Lock.midState tasks k))).promises (2*k+1)
      = .pending [⟨Lock.Handler.noopBoth, 2*k+1+1⟩] := by
    rw [e2, e1]
    show Lock.updP (Lock.updP (Lock.midState tasks k).promises
        ((Lock.midState tasks k).nextP) (.pending [⟨Lock.Handler.adoptTask k, 2*k+1⟩]))
        ((Lock.midState tasks k).nextP) (.settled out) (2*k+1) = _
    simp only [Lock.updP]
    rw [if_neg hne1, if_neg hne1]
    show Lock.midPromises tasks k (2*k+1) = _
    exact midPromises_ret tasks k hk
  have e3 := step_adopt (Lock.step (Lock.step (Lock.midState tasks k))) out k (2*k+1)
    [⟨Lock.Handler.noopBoth, 2*k+1+1⟩] [] hq2 hp2
  have hq3 : (Lock.step (Lock.step (Lock.step (Lock.midState tasks k)))).queue
      = Lock.Job.react out ⟨.noopBoth, 2*k+1+1⟩ :: [] := by
    rw [e3]
    rfl
  have hne2 : ¬(2*k+1+1 = (Lock.midState tasks k).nextP) := by
    simp only [Lock.midState]
    omega
  have hp3 : (Lock.step (Lock.step (Lock.step (Lock.midState tasks k)))).promises (2*k+1+1)
      = .pending (if k+1 < tasks.length
          then [⟨Lock.Handler.runTask (k+1), 2*k+1+1+1⟩] else []) := by
    rw [e3, e2, e1]
    show Lock.updP (Lock.updP (Lock.updP (Lock.midState tasks k).promises
        ((Lock.midState tasks k).nextP) (.pending [⟨Lock.Handler.adoptTask k, 2*k+1⟩]))
        ((Lock.midState tasks k).nextP) (.settled out))
        (2*k+1) (.settled out) (2*k+1+1) = _
    simp only [Lock.updP]
    rw [if_neg (show ¬(2*k+1+1 = 2*k+1) from by omega), if_neg hne2, if_neg hne2]
    show Lock.midPromises tasks k (2*k+1+1) = _
    exact midPromises_chain tasks k hk
  have e4 := step_noop (Lock.step (Lock.step (Lock.step (Lock.midState tasks k)))) out
    (2*k+1+1) (if k+1 < tasks.length
      then [⟨Lock.Handler.runTask (k+1), 2*k+1+1+1⟩] else []) [] hq3 hp3
  show Lock.step (Lock.step (Lock.step (Lock.step (Lock.midState tasks k)))) = _
  rw [e4, e3, e2, e1]
  simp only [Lock.midState]
  rw [Lock.Machine.mk.injEq]
  refine ⟨rfl, ?_, ?_, ?_, ?_, rfl⟩
  · exact midPromises_succ_completes tasks k out hk ht
  · rw [completedOutcomes_take_completes ht]
    simp only [List.length_append, List.length_singleton]
    omega
  · by_cases h : k+1 < tasks.length
    · rw [if_pos h, if_pos h]
      rfl
    · rw [if_neg h, if_neg h]
      rfl
  · rw [canonicalTrace_take_succ tasks k _ hk ht, List.append_assoc]
    rfl

theorem mid_step (tasks : List TaskSpec) (k : Nat) (t : TaskSpec)
    (hk : k < tasks.length) (ht : tasks.get? k = some t) :
    Lock.stepN (Lock.cost t) (Lock.midState tasks k) = Lock.midState tasks (k+1) := by
  cases t with
  | throws e => exact mid_step_throws tasks k e hk ht
  | completes out => exact mid_step_completes tasks k out hk ht

theorem mid_run (tasks : List TaskSpec) (r k : Nat) (h : k + r = tasks.length) :
    Lock.stepN (Lock.totalCost (tasks.drop k)) (Lock.midState tasks k)
      = Lock.midState tasks tasks.length := by
  induction r generalizing k with
  | zero =>
    have hdrop : tasks.drop k = [] := List.drop_eq_nil_of_le (by omega)
    rw [hdrop]
    show Lock.midState tasks k = _
    rw [show k = tasks.length from by omega]
  | succ r ih =>
    have hk : k < tasks.length := by omega
    have hdrop : tasks.drop k = tasks.get ⟨k, hk⟩ :: tasks.drop (k+1) := by
      rw [List.drop_eq_getElem_cons hk]
      rfl
    rw [hdrop]
    unfold Lock.totalCost
    rw [List.map_cons, List.sum_cons, stepN_add,
      mid_step tasks k _ hk (List.get?_eq_get hk)]
    have := ih (k+1) (by omega)
    unfold Lock.totalCost at this
    exact this

theorem runLock_eq (tasks : List TaskSpec) :
    Lock.runLock tasks = Lock.midState tasks tasks.length := by
  unfold Lock.runLock
  rw [enqueueAll_eq, enqMid_eq_midState]
  have := mid_run tasks tasks.length 0 (by omega)
  rw [List.drop_zero] at this
  exact this

theorem runLock_trace (tasks : List TaskSpec) :
    (Lock.runLock tasks).trace = Lock.canonicalTrace tasks 0 := by
  rw [runLock_eq]
  show Lock.canonicalTrace (tasks.take tasks.length) 0 = _
  rw [List.take_length]

theorem runLock_promises_ret (tasks : List TaskSpec) (j : Nat) (hj : j < tasks.length) :
    (Lock.runLock tasks).promises (2*j+1) = .settled (taskOutcome tasks j) := by
  rw [runLock_eq]
  show Lock.midPromises tasks tasks.length (2*j+1) = _
  unfold Lock.midPromises
  rw [if_neg (by omega), if_pos (by omega),
    if_pos (show (2*j+1) % 2 = 1 from by omega),
    if_pos (show (2*j+1-1)/2 < tasks.length from by omega),
    show (2*j+1-1)/2 = j from by omega]

theorem runLock_promises_chain (tasks : List TaskSpec) (j : Nat) (hj : j < tasks.length) :
    (Lock.runLock tasks).promises (2*j+1+1) = .settled (.ok 0) := by
  rw [runLock_eq]
  show Lock.midPromises tasks tasks.length (2*j+1+1) = _
  unfold Lock.midPromises
  rw [if_neg (by omega), if_pos (by omega),
    if_neg (show ¬((2*j+1+1) % 2 = 1) from by omega),
    if_pos (show (2*j+1+1-1)/2 < tasks.length from by omega)]

theorem runLock_promises_zero (tasks : List TaskSpec) :
    (Lock.runLock tasks).promises 0 = .settled (.ok 0) := by
  rw [runLock_eq]
  rfl

theorem runLock_queue_empty (tasks : List TaskSpec) :
    (Lock.runLock tasks).queue = [] := by
  rw [runLock_eq]
  show (if tasks.length < tasks.length then _ else []) = ([] : List Lock.Job)
  rw [if_neg (by omega)]

/-- C1: for tasks enqueued back-to-back on a fresh lock (no awaits between the
`executeSynchronized` calls), the task bodies begin executing in exact enqueue
order and task `k+1` never begins before task `k`'s future has settled: in the
machine's run trace, task `k` begins at position `2k`, its returned promise
settles (with success or failure) at position `2k+1`, and the unique begin
event of task `k+1` sits at position `2k+2`, strictly after it. -/
theorem lock_fifo_order (tasks : List TaskSpec) (k : Nat) (h : k + 1 < tasks.length) :
    (Lock.runLock tasks).trace.get? (2*k) = some (.begins k) ∧
    (Lock.runLock tasks).trace.get? (2*k+1)
      = some (.settles k (taskOutcome tasks k)) ∧
    (Lock.runLock tasks).trace.get? (2*k+2) = some (.begins (k+1)) ∧
    ∀ i, (Lock.runLock tasks).trace.get? i = some (.begins (k+1)) → i = 2*k+2 := by
  rw [runLock_trace]
  refine ⟨?_, ?_, ?_, ?_⟩
  · have hb := canonicalTrace_get?_begins tasks 0 k (by omega)
    simpa using hb
  · have hs := canonicalTrace_get?_settles tasks 0 k (by omega)
    simpa [taskOutcome] using hs
  · have hb := canonicalTrace_get?_begins tasks 0 (k+1) (by omega)
    rw [show 2*(k+1) = 2*k+2 from by omega] at hb
    simpa using hb
  · intro i hi
    have := canonicalTrace_begins_inv tasks 0 i (k+1) hi
    omega

/-- Witness for C1 on the concrete task list `[completes (ok 1), throws 7,
completes (err 3)]` at `k = 1`. -/
theorem lock_fifo_order_witness :
    (Lock.runLock [TaskSpec.completes (.ok 1), .throws 7, .completes (.err 3)]).trace.get?
        (2*1) = some (.begins 1) ∧
    (Lock.runLock [TaskSpec.completes (.ok 1), .throws 7, .completes (.err 3)]).trace.get?
        (2*1+1) = some (.settles 1
          (taskOutcome [TaskSpec.completes (.ok 1), .throws 7, .completes (.err 3)] 1)) ∧
    (Lock.runLock [TaskSpec.completes (.ok 1), .throws 7, .completes (.err 3)]).trace.get?
        (2*1+2) = some (.begins (1+1)) ∧
    ∀ i, (Lock.runLock [TaskSpec.completes (.ok 1), .throws 7,
        .completes (.err 3)]).trace.get? i = some (.begins (1+1)) → i = 2*1+2 :=
  lock_fifo_order [TaskSpec.completes (.ok 1), .throws 7, .completes (.err 3)] 1 (by decide)

/-- C2: if task `k` throws or its returned future rejects, the future returned
by `executeSynchronized` for task `k` settles rejected with that failure; the
lock's internal chain promises (the `.then(noop, noop)` recoveries, including
the initial `Promise.resolve()`) all fulfill; task `k+1` still begins and
settles with its own outcome; every enqueued task's future carries exactly its
own outcome (the failure reaches no other task's future); and the machine ends
with an empty job queue. -/
theorem lock_error_isolation (tasks : List TaskSpec) (k e : Nat)
    (h : k + 1 < tasks.length) (hfail : taskOutcome tasks k = .err e) :
    (Lock.runLock tasks).promises (2*k+1) = .settled (.err e) ∧
    (∀ j, j < tasks.length →
      (Lock.runLock tasks).promises (2*j+1+1) = .settled (.ok 0)) ∧
    (Lock.runLock tasks).promises 0 = .settled (.ok 0) ∧
    (Lock.runLock tasks).trace.get? (2*k+2) = some (.begins (k+1)) ∧
    (Lock.runLock tasks).trace.get? (2*k+2+1)
      = some (.settles (k+1) (taskOutcome tasks (k+1))) ∧
    (∀ j, j < tasks.length →
      (Lock.runLock tasks).promises (2*j+1) = .settled (taskOutcome tasks j)) ∧
    (Lock.runLock tasks).queue = [] := by
  refine ⟨?_, fun j hj => runLock_promises_chain tasks j hj,
    runLock_promises_zero tasks, ?_, ?_,
    fun j hj => runLock_promises_ret tasks j hj, runLock_queue_empty tasks⟩
  · rw [runLock_promises_ret tasks k (by omega), hfail]
  · rw [runLock_trace]
    have hb := canonicalTrace_get?_begins tasks 0 (k+1) (by omega)
    rw [show 2*(k+1) = 2*k+2 from by omega] at hb
    simpa using hb
  · rw [runLock_trace]
    have hs := canonicalTrace_get?_settles tasks 0 (k+1) (by omega)
    rw [show 2*(k+1)+1 = 2*k+2+1 from by omega] at hs
    simpa [taskOutcome] using hs

/-- Witness for C2 on the concrete task list `[throws 7, completes (ok 5)]`
at `k = 0`: the first task fails with 7, the second still runs and succeeds. -/
theorem lock_error_isolation_witness :
    (Lock.runLock [TaskSpec.throws 7, .completes (.ok 5)]).promises (2*0+1)
        = .settled (.err 7) ∧
    (∀ j, j < ([TaskSpec.throws 7, .completes (.ok 5)] : List TaskSpec).length →
      (Lock.runLock [TaskSpec.throws 7, .completes (.ok 5)]).promises (2*j+1+1)
        = .settled (.ok 0)) ∧
    (Lock.runLock [TaskSpec.throws 7, .completes (.ok 5)]).promises 0
        = .settled (.ok 0) ∧
    (Lock.runLock [TaskSpec.throws 7, .completes (.ok 5)]).trace.get? (2*0+2)
        = some (.begins (0+1)) ∧
    (Lock.runLock [TaskSpec.throws 7, .completes (.ok 5)]).trace.get? (2*0+2+1)
        = some (.settles (0+1)
            (taskOutcome [TaskSpec.throws 7, .completes (.ok 5)] (0+1))) ∧
    (∀ j, j < ([TaskSpec.throws 7, .completes (.ok 5)] : List TaskSpec).length →
      (Lock.runLock [TaskSpec.throws 7, .completes (.ok 5)]).promises (2*j+1)
        = .settled (taskOutcome [TaskSpec.throws 7, .completes (.ok 5)] j)) ∧
    (Lock.runLock [TaskSpec.throws 7, .completes (.ok 5)]).queue = [] :=
  lock_error_isolation [TaskSpec.throws 7, .completes (.ok 5)] 0 7 (by decide) (by decide)

/-- Witness for C5 at the concrete state with persistent listeners 1, 2 and
once-listener 3, registering callback 5 via `once` then `on`. -/
theorem event_once_then_on_persistent_witness :
    5 ∈ (Event.on' (Event.once ⟨[1,2],[3]⟩ 5) 5).listeners ∧
    5 ∉ (Event.on' (Event.once ⟨[1,2],[3]⟩ 5) 5).onceListeners ∧
    (∀ m, (Event.schedAt m (Event.on' (Event.once ⟨[1,2],[3]⟩ 5) 5)).count 5 = 1) ∧
    (∀ t : EventState, 5 ∈ t.listeners → Event.once t 5 = t) :=
  event_once_then_on_persistent ⟨[1,2],[3]⟩ 5 (by decide)

/-- Witness for C6 at the concrete state with persistent listeners 1, 2 and
once-listeners 3, 4. -/
theorem event_emit_order_witness :
    (Event.emit (⟨[1,2],[3,4]⟩ : EventState)).1 = [1,2] ++ [3,4] ∧
    (Event.emit (⟨[1,2],[3,4]⟩ : EventState)).2.onceListeners = [] ∧
    (Event.emit (⟨[1,2],[3,4]⟩ : EventState)).2.listeners = [1,2] ∧
    (∀ f ∈ ([3,4] : List Listener),
      f ∉ (Event.emit (Event.emit (⟨[1,2],[3,4]⟩ : EventState)).2).1) :=
  event_emit_order ⟨[1,2],[3,4]⟩ (by decide)

/-- Witness for C9 at the concrete state with persistent listener 1 and
once-listener 2, registering callback 5 via `once` then `on`. -/
theorem event_once_unsub_frame_witness :
    Event.onceUnsub (Event.on' (Event.once ⟨[1],[2]⟩ 5) 5) 5
        = Event.on' (Event.once ⟨[1],[2]⟩ 5) 5 ∧
    5 ∈ (Event.onceUnsub (Event.on' (Event.once ⟨[1],[2]⟩ 5) 5) 5).listeners ∧
    (Event.emit (Event.onceUnsub (Event.on' (Event.once ⟨[1],[2]⟩ 5) 5) 5)).1.count 5
        = 1 ∧
    5 ∉ (Event.off (Event.on' (Event.once ⟨[1],[2]⟩ 5) 5) 5).listeners ∧
    5 ∉ (Event.off (Event.on' (Event.once ⟨[1],[2]⟩ 5) 5) 5).onceListeners :=
  event_once_unsub_frame ⟨[1],[2]⟩ 5 (by decide) (by decide)

/-- Witness for C10 at the concrete state with persistent listeners 1, 2 and
once-listener 3, registering callback 5. -/
theorem event_listenerCount_persistent_witness :
    Event.listenerCount (Event.once ⟨[1,2],[3]⟩ 5)
        = Event.listenerCount ⟨[1,2],[3]⟩ ∧
    Event.listenerCount (Event.on' (Event.once ⟨[1,2],[3]⟩ 5) 5)
        = Event.listenerCount ⟨[1,2],[3]⟩ + 1 ∧
    (Event.on' (Event.once ⟨[1,2],[3]⟩ 5) 5).listeners.count 5 = 1 :=
  event_listenerCount_persistent ⟨[1,2],[3]⟩ 5 (by decide) (by decide)
